import Mathlib

/-!
Verification of the image-to-ASCII conversion pipeline (`convertToAscii` and
its helpers) of the Photo-2-Ascii repository.

Modelling conventions for the shallow embedding:
* JavaScript numbers are modelled by exact arithmetic: integers by `Nat`/`Int`
  and fractional values by `ℚ`; `Math.sqrt` (used only for the color-mode
  perceptual brightness) is modelled by the exact `Real.sqrt`, so the
  brightness pipeline lives in `ℝ`.  For the integer magnitudes an image
  can have, `Math.floor`/`Math.ceil` of the quotients computed by the code
  agree with the exact rational floor/ceiling used here.
* The decoded image handed to the converter by `getImageData` is a flat
  RGBA buffer: 4 consecutive entries per pixel, row-major.  Out-of-range
  reads are given the default 0 (the in-bounds theorem shows the code never
  performs one on a well-formed buffer).
* In JavaScript, `Math.ceil(a / 0)` yields `Infinity`, and a `for` loop
  stepping by `Infinity` visits only its starting index.  A stride is
  therefore an `Option Nat`: `none` models the `Infinity` produced when the
  target sample count is zero, and the walk then visits index 0 only.
* The error paths that depend on the browser environment (canvas context
  unavailable, cross-origin pixel access) are unreachable in the embedding,
  which receives the decoded buffer directly; the dimension check is the
  one performed on the buffer itself.
-/

namespace PhotoToAscii

/-- A decoded image as handed to the converter: dimensions plus the flat
RGBA pixel buffer (`data[(y*width+x)*4 + c]` is channel `c` of pixel
`(x, y)`, channels in r, g, b, a order). -/
structure Image where
  width : Nat
  height : Nat
  data : List Nat
deriving DecidableEq

/-- The six built-in character-set keys (the `keyof typeof charSets` type). -/
inductive CharSetKey
  | standard
  | detailed
  | blocks
  | minimal
  | artistic
  | retro
deriving DecidableEq

/-- One entry of the `charSets` catalog: display name and ramp characters. -/
structure CharSet where
  name : String
  chars : String
deriving DecidableEq

/-- The `charSets` constant: the six built-in ramps, exactly as in the
source (sparse at index 0, dense at the last index). -/
def charSets : CharSetKey → CharSet
  | .standard => ⟨"Standard", " .:-=+*#%@"⟩
  | .detailed => ⟨"Detailed", " .,:;i1tfLCG08@"⟩
  | .blocks => ⟨"Block Characters", " ░▒▓█"⟩
  | .minimal => ⟨"Minimal", " .:█"⟩
  | .artistic =>
      ⟨"Artistic",
       " .\x27\x60^\",:;Il!i><~+_-?][\x7d\x7b1)(|\\/tfjrxnuvczXYUJCLQ0OZmwqpdbkhao*#MW&8%B@$"⟩
  | .retro => ⟨"Retro", " .:;+=xX$&@"⟩

/-- Length of a built-in ramp (`chars.length` in the source). -/
def rampLen (k : CharSetKey) : Nat := (charSets k).chars.toList.length

/-- The `ConversionSettings` value object. -/
structure ConversionSettings where
  resolution : ℚ
  charSet : CharSetKey
  inverted : Bool
  grayscale : Bool

/-- A cell color: the fixed `"white"` used in grayscale mode, or the
`rgb(r, g, b)` value built by `adjustColorBrightness`. -/
inductive Color
  | white
  | rgb (r g b : ℤ)
deriving DecidableEq

/-- One output cell (`ColoredChar` in the source). -/
structure ColoredChar where
  char : Char
  color : Color
deriving DecidableEq

/-- `Math.round` for the nonnegative values the code feeds it
(JavaScript rounds half away from zero upward). -/
def jsRound (q : ℚ) : ℤ := ⌊q + 1 / 2⌋

/-- `adjustColorBrightness`: scale each channel by `factor`, round, clamp
to at most 255 and at least the floor 40. -/
def adjustColorBrightness (r g b : Nat) (factor : ℚ) : Color :=
  Color.rgb (max (min (jsRound ((r : ℚ) * factor)) 255) 40)
    (max (min (jsRound ((g : ℚ) * factor)) 255) 40)
    (max (min (jsRound ((b : ℚ) * factor)) 255) 40)

/-- Grayscale-mode brightness: `(r * 0.299 + g * 0.587 + b * 0.114) / 255`. -/
def grayLuma (r g b : Nat) : ℚ :=
  ((r : ℚ) * 0.299 + (g : ℚ) * 0.587 + (b : ℚ) * 0.114) / 255

/-- Color-mode brightness:
`sqrt (0.299*(r/255)^2 + 0.587*(g/255)^2 + 0.114*(b/255)^2)`. -/
noncomputable def colorBrightness (r g b : Nat) : ℝ :=
  Real.sqrt (0.299 * ((r : ℝ) / 255) * ((r : ℝ) / 255) +
    0.587 * ((g : ℝ) / 255) * ((g : ℝ) / 255) +
    0.114 * ((b : ℝ) / 255) * ((b : ℝ) / 255))

/-- Brightness of a pixel under the given settings: grayscale or color
formula, then the optional inversion `1 - brightness`. -/
noncomputable def brightnessOf (st : ConversionSettings) (r g b : Nat) : ℝ :=
  let base : ℝ :=
    if st.grayscale then ((grayLuma r g b : ℚ) : ℝ) else colorBrightness r g b
  if st.inverted then 1 - base else base

/-- `charIndex = Math.floor(brightness * (chars.length - 1))`. -/
noncomputable def rampIndex (brightness : ℝ) (len : Nat) : Nat :=
  (⌊brightness * ((len - 1 : Nat) : ℝ)⌋).toNat

/-- The ramp index selected for a pixel under the given settings. -/
noncomputable def charIndexOf (st : ConversionSettings) (r g b : Nat) (len : Nat) : Nat :=
  rampIndex (brightnessOf st r g b) len

/-- `brightnessFactor = (charIndex / (chars.length - 1)) * 1.5 + 0.5`. -/
def brightnessFactor (ci len : Nat) : ℚ :=
  ((ci : ℚ) / ((len - 1 : Nat) : ℚ)) * 1.5 + 0.5

/-- `Math.ceil (a / b)` for naturals with `b > 0`. -/
def ceilDiv (a b : Nat) : Nat := (a + b - 1) / b

/-- `Math.floor(imgWidth * settings.resolution)` — the target sample
column count (the `width` local of `convertToAscii`). -/
def sampleCols (w : Nat) (res : ℚ) : Nat := (⌊(w : ℚ) * res⌋).toNat

/-- `Math.floor(imgHeight * settings.resolution)` — the target sample
row count (the `height` local of `convertToAscii`). -/
def sampleRows (h : Nat) (res : ℚ) : Nat := (⌊(h : ℚ) * res⌋).toNat

/-- `widthStep = Math.ceil(imgWidth / width)`; `none` models the
`Infinity` JavaScript produces when `width` is 0. -/
def widthStep (w : Nat) (res : ℚ) : Option Nat :=
  if sampleCols w res = 0 then none else some (ceilDiv w (sampleCols w res))

/-- `heightStep = Math.ceil(imgHeight / height / fontAspect)` with
`fontAspect = 0.5`, i.e. `ceil (2 * imgHeight / height)`; `none` models the
`Infinity` JavaScript produces when `height` is 0. -/
def heightStep (h : Nat) (res : ℚ) : Option Nat :=
  if sampleRows h res = 0 then none else some (ceilDiv (2 * h) (sampleRows h res))

/-- The indices visited by `for (let i = 0; i < dim; i += step)`: multiples
of the stride below `dim`; a `none` stride (JavaScript `Infinity`) visits
only index 0. -/
def stridePositions (dim : Nat) (step : Option Nat) : List Nat :=
  match step with
  | none => if 0 < dim then [0] else []
  | some s => (List.range (ceilDiv dim s)).map (fun k => k * s)

/-- The conversion errors of the specification; only the dimension check
applies to a decoded buffer (the other two are environment failures of the
browser canvas, unreachable in the embedding). -/
inductive ConversionError
  | invalidDimensions
  | contextUnavailable
  | pixelAccessDenied
deriving DecidableEq

/-- The loop body of `convertToAscii` at a visited pixel `(x, y)`: read the
r, g, b channels at `pos = (y*width + x) * 4`, pick the ramp character, and
attach white (grayscale mode) or the adjusted source color (color mode). -/
noncomputable def cellAt (img : Image) (st : ConversionSettings) (chars : List Char)
    (x y : Nat) : ColoredChar :=
  let pos := (y * img.width + x) * 4
  let r := img.data.getD pos 0
  let g := img.data.getD (pos + 1) 0
  let b := img.data.getD (pos + 2) 0
  let ci := charIndexOf st r g b chars.length
  let c := chars.getD ci ' '
  if st.grayscale then ⟨c, Color.white⟩
  else ⟨c, adjustColorBrightness r g b (brightnessFactor ci chars.length)⟩

/-- `convertToAscii`: validate dimensions, derive the strides, walk the
image top-to-bottom and left-to-right, and return the plain text (rows
joined by newline with a trailing newline) together with the colored grid.
Failure returns the error and no output. -/
noncomputable def convertToAscii (img : Image) (st : ConversionSettings) :
    Except ConversionError (String × List (List ColoredChar)) :=
  if img.width = 0 ∨ img.height = 0 then .error .invalidDimensions
  else
    let chars := (charSets st.charSet).chars.toList
    let ys := stridePositions img.height (heightStep img.height st.resolution)
    let xs := stridePositions img.width (widthStep img.width st.resolution)
    let grid := ys.map (fun y => xs.map (fun x => cellAt img st chars x y))
    let text :=
      String.mk (List.flatten (grid.map (fun row => row.map (fun cell => cell.char) ++ ['\n'])))
    .ok (text, grid)

/-- Grayscale-mode brightness with inversion, entirely in `ℚ` (the
grayscale pipeline never touches `Math.sqrt`). -/
def grayBrightnessQ (st : ConversionSettings) (r g b : Nat) : ℚ :=
  let base := grayLuma r g b
  if st.inverted then 1 - base else base

/-- The ramp index of the grayscale pipeline, computed in `ℚ`. -/
def grayCharIndex (st : ConversionSettings) (r g b : Nat) (len : Nat) : Nat :=
  (⌊grayBrightnessQ st r g b * ((len - 1 : Nat) : ℚ)⌋).toNat

/-- Computable mirror of `cellAt` for grayscale-mode settings. -/
def grayCellAt (img : Image) (st : ConversionSettings) (chars : List Char)
    (x y : Nat) : ColoredChar :=
  let pos := (y * img.width + x) * 4
  let r := img.data.getD pos 0
  let g := img.data.getD (pos + 1) 0
  let b := img.data.getD (pos + 2) 0
  ⟨chars.getD (grayCharIndex st r g b chars.length) ' ', Color.white⟩

/-- Computable mirror of `convertToAscii` for grayscale-mode settings,
used to evaluate the converter on concrete inputs. -/
def convertGray (img : Image) (st : ConversionSettings) :
    Except ConversionError (String × List (List ColoredChar)) :=
  if img.width = 0 ∨ img.height = 0 then .error .invalidDimensions
  else
    let chars := (charSets st.charSet).chars.toList
    let ys := stridePositions img.height (heightStep img.height st.resolution)
    let xs := stridePositions img.width (widthStep img.width st.resolution)
    let grid := ys.map (fun y => xs.map (fun x => grayCellAt img st chars x y))
    let text :=
      String.mk (List.flatten (grid.map (fun row => row.map (fun cell => cell.char) ++ ['\n'])))
    .ok (text, grid)

/-- The 2-by-2 image of the specification scenario: pixels in row-major
order white, black, white, black, all fully opaque. -/
def imgC1 : Image :=
  ⟨2, 2, [255, 255, 255, 255, 0, 0, 0, 255, 255, 255, 255, 255, 0, 0, 0, 255]⟩

/-- Settings of the specification scenario: full resolution, the standard
10-character ramp, no inversion, grayscale mode. -/
def stGray : ConversionSettings := ⟨1, .standard, false, true⟩

/-- A 1-by-1 opaque image. -/
def img11 : Image := ⟨1, 1, [7, 8, 9, 255]⟩

/-- The same 1-by-1 image with a different alpha value. -/
def img11a : Image := ⟨1, 1, [7, 8, 9, 0]⟩

/-- A 1-by-1 black image. -/
def imgBlack1 : Image := ⟨1, 1, [0, 0, 0, 255]⟩

/-- Color-mode settings: full resolution, standard ramp, no inversion. -/
def stColor : ConversionSettings := ⟨1, .standard, false, false⟩

/-! ### Basic facts about the ramps and the stride walk -/

theorem rampLen_ge_four (k : CharSetKey) : 4 ≤ rampLen k := by
  cases k <;> decide

theorem newline_not_mem_chars (k : CharSetKey) : '\n' ∉ (charSets k).chars.toList := by
  cases k <;> decide

theorem ceilDiv_pos {a b : Nat} (ha : 0 < a) (hb : 0 < b) : 0 < ceilDiv a b := by
  have : 1 * b ≤ a + b - 1 := by omega
  exact Nat.lt_of_lt_of_le Nat.zero_lt_one ((Nat.le_div_iff_mul_le hb).mpr this)

theorem mem_stridePositions_lt {dim : Nat} {step : Option Nat} {x : Nat}
    (hx : x ∈ stridePositions dim step) : x < dim := by
  cases step with
  | none =>
    by_cases h : 0 < dim
    · simp only [stridePositions, if_pos h, List.mem_singleton] at hx
      omega
    · simp [stridePositions, if_neg h] at hx
  | some s =>
    simp only [stridePositions, List.mem_map, List.mem_range] at hx
    obtain ⟨k, hk, rfl⟩ := hx
    rcases Nat.eq_zero_or_pos s with hs | hs
    · subst hs
      simp [ceilDiv] at hk
    · have h3 : (k + 1) * s ≤ dim + s - 1 := (Nat.le_div_iff_mul_le hs).mp hk
      rw [Nat.succ_mul] at h3
      have hm : k * s + s ≤ dim + s - 1 := h3
      omega

theorem stridePositions_widthStep_ne_nil {w : Nat} (hw : 0 < w) (res : ℚ) :
    stridePositions w (widthStep w res) ≠ [] := by
  unfold widthStep
  by_cases h : sampleCols w res = 0
  · simp [stridePositions, h, hw]
  · have hs : 0 < ceilDiv w (sampleCols w res) := ceilDiv_pos hw (Nat.pos_of_ne_zero h)
    have hn : 0 < ceilDiv w (ceilDiv w (sampleCols w res)) := ceilDiv_pos hw hs
    simp only [stridePositions, if_neg h, ne_eq, List.map_eq_nil_iff, List.range_eq_nil]
    omega

theorem stridePositions_heightStep_ne_nil {h : Nat} (hh : 0 < h) (res : ℚ) :
    stridePositions h (heightStep h res) ≠ [] := by
  unfold heightStep
  by_cases hz : sampleRows h res = 0
  · simp [stridePositions, hz, hh]
  · have hs : 0 < ceilDiv (2 * h) (sampleRows h res) :=
      ceilDiv_pos (by omega) (Nat.pos_of_ne_zero hz)
    have hn : 0 < ceilDiv h (ceilDiv (2 * h) (sampleRows h res)) := ceilDiv_pos hh hs
    simp only [stridePositions, if_neg hz, ne_eq, List.map_eq_nil_iff, List.range_eq_nil]
    omega

theorem stride_one_axis (res : ℚ) (h0 : 0 < res) (h1 : res ≤ 1) :
    stridePositions 1 (widthStep 1 res) = [0] ∧
    stridePositions 1 (heightStep 1 res) = [0] := by
  have hsc : sampleCols 1 res = 0 ∨ sampleCols 1 res = 1 := by
    unfold sampleCols
    rcases lt_or_eq_of_le h1 with hlt | heq
    · left
      rw [Nat.cast_one, one_mul, Int.floor_eq_zero_iff.mpr ⟨le_of_lt h0, hlt⟩]
      rfl
    · right
      subst heq
      norm_num
  have hsr : sampleRows 1 res = sampleCols 1 res := rfl
  rcases hsc with hz | ho
  · rw [show widthStep 1 res = none by simp [widthStep, hz],
      show heightStep 1 res = none by simp [heightStep, hsr, hz]]
    exact ⟨rfl, rfl⟩
  · rw [show widthStep 1 res = some 1 by simp [widthStep, ho, ceilDiv],
      show heightStep 1 res = some 2 by simp [heightStep, hsr, ho]; rfl]
    exact ⟨by decide, by decide⟩

/-! ### Brightness and ramp-index bounds -/

theorem grayLuma_nonneg (r g b : Nat) : 0 ≤ grayLuma r g b := by
  unfold grayLuma
  positivity

theorem grayLuma_le_one {r g b : Nat} (hr : r ≤ 255) (hg : g ≤ 255) (hb : b ≤ 255) :
    grayLuma r g b ≤ 1 := by
  unfold grayLuma
  rw [div_le_one (by norm_num)]
  have hr' : (r : ℚ) ≤ 255 := by exact_mod_cast hr
  have hg' : (g : ℚ) ≤ 255 := by exact_mod_cast hg
  have hb' : (b : ℚ) ≤ 255 := by exact_mod_cast hb
  have h1 : (r : ℚ) * 0.299 ≤ 255 * 0.299 :=
    mul_le_mul_of_nonneg_right hr' (by norm_num)
  have h2 : (g : ℚ) * 0.587 ≤ 255 * 0.587 :=
    mul_le_mul_of_nonneg_right hg' (by norm_num)
  have h3 : (b : ℚ) * 0.114 ≤ 255 * 0.114 :=
    mul_le_mul_of_nonneg_right hb' (by norm_num)
  have : (255 : ℚ) * 0.299 + 255 * 0.587 + 255 * 0.114 = 255 := by norm_num
  linarith

theorem colorBrightness_nonneg (r g b : Nat) : 0 ≤ colorBrightness r g b :=
  Real.sqrt_nonneg _

theorem colorBrightness_le_one {r g b : Nat} (hr : r ≤ 255) (hg : g ≤ 255) (hb : b ≤ 255) :
    colorBrightness r g b ≤ 1 := by
  unfold colorBrightness
  apply Real.sqrt_le_one.mpr
  have hr' : (r : ℝ) / 255 ≤ 1 := by
    rw [div_le_one (by norm_num)]
    exact_mod_cast hr
  have hg' : (g : ℝ) / 255 ≤ 1 := by
    rw [div_le_one (by norm_num)]
    exact_mod_cast hg
  have hb' : (b : ℝ) / 255 ≤ 1 := by
    rw [div_le_one (by norm_num)]
    exact_mod_cast hb
  have hr0 : (0 : ℝ) ≤ (r : ℝ) / 255 := by positivity
  have hg0 : (0 : ℝ) ≤ (g : ℝ) / 255 := by positivity
  have hb0 : (0 : ℝ) ≤ (b : ℝ) / 255 := by positivity
  nlinarith

theorem brightnessOf_mem {r g b : Nat} (st : ConversionSettings)
    (hr : r ≤ 255) (hg : g ≤ 255) (hb : b ≤ 255) :
    0 ≤ brightnessOf st r g b ∧ brightnessOf st r g b ≤ 1 := by
  have g0 : (0 : ℝ) ≤ ((grayLuma r g b : ℚ) : ℝ) := by
    exact_mod_cast grayLuma_nonneg r g b
  have g1 : ((grayLuma r g b : ℚ) : ℝ) ≤ 1 := by
    exact_mod_cast grayLuma_le_one hr hg hb
  have c0 := colorBrightness_nonneg r g b
  have c1 := colorBrightness_le_one hr hg hb
  cases hgr : st.grayscale <;> cases hinv : st.inverted <;>
    simp only [brightnessOf, hgr, hinv, if_true, if_false, Bool.false_eq_true] <;>
    exact ⟨by linarith, by linarith⟩

theorem rampIndex_le {br : ℝ} {len : Nat} (hb1 : br ≤ 1) :
    rampIndex br len ≤ len - 1 := by
  unfold rampIndex
  have hc : (0 : ℝ) ≤ ((len - 1 : Nat) : ℝ) := by positivity
  have hle : br * ((len - 1 : Nat) : ℝ) ≤ ((len - 1 : Nat) : ℝ) :=
    mul_le_of_le_one_left hc hb1
  have : ⌊br * ((len - 1 : Nat) : ℝ)⌋ ≤ ((len - 1 : Nat) : ℤ) := by
    calc ⌊br * ((len - 1 : Nat) : ℝ)⌋ ≤ ⌊((len - 1 : Nat) : ℝ)⌋ := Int.floor_le_floor hle
    _ = ((len - 1 : Nat) : ℤ) := Int.floor_natCast _
  exact Int.toNat_le.mpr this

theorem rampIndex_lt {br : ℝ} {len : Nat} (hlen : 0 < len) (hb1 : br ≤ 1) :
    rampIndex br len < len :=
  lt_of_le_of_lt (rampIndex_le hb1) (by omega)

theorem rampIndex_zero (len : Nat) : rampIndex 0 len = 0 := by
  unfold rampIndex
  simp

theorem rampIndex_one (len : Nat) : rampIndex 1 len = len - 1 := by
  unfold rampIndex
  rw [one_mul, Int.floor_natCast, Int.toNat_natCast]

/-! ### The grayscale pipeline computed in exact rationals -/

theorem brightnessOf_gray {st : ConversionSettings} (h : st.grayscale = true)
    (r g b : Nat) : brightnessOf st r g b = ((grayBrightnessQ st r g b : ℚ) : ℝ) := by
  unfold brightnessOf grayBrightnessQ
  rw [h]
  cases st.inverted <;> simp

theorem charIndexOf_gray {st : ConversionSettings} (h : st.grayscale = true)
    (r g b len : Nat) : charIndexOf st r g b len = grayCharIndex st r g b len := by
  unfold charIndexOf grayCharIndex rampIndex
  rw [brightnessOf_gray h]
  congr 1
  have : ((grayBrightnessQ st r g b : ℚ) : ℝ) * ((len - 1 : Nat) : ℝ) =
      (((grayBrightnessQ st r g b * ((len - 1 : Nat) : ℚ)) : ℚ) : ℝ) := by
    push_cast
    ring
  rw [this, Rat.floor_cast]

theorem cellAt_gray {st : ConversionSettings} (h : st.grayscale = true)
    (img : Image) (chars : List Char) (x y : Nat) :
    cellAt img st chars x y = grayCellAt img st chars x y := by
  simp only [cellAt, grayCellAt, charIndexOf_gray h, h, if_true]

theorem convertToAscii_gray {st : ConversionSettings} (h : st.grayscale = true)
    (img : Image) : convertToAscii img st = convertGray img st := by
  unfold convertToAscii convertGray
  by_cases hd : img.width = 0 ∨ img.height = 0
  · rw [if_pos hd, if_pos hd]
  · rw [if_neg hd, if_neg hd]
    simp only [cellAt_gray h]

/-! ### Inverting a successful conversion -/

theorem convert_ok_elim {img : Image} {st : ConversionSettings} {text : String}
    {grid : List (List ColoredChar)}
    (hok : convertToAscii img st = .ok (text, grid)) :
    img.width ≠ 0 ∧ img.height ≠ 0 ∧
    grid = (stridePositions img.height (heightStep img.height st.resolution)).map
      (fun y => (stridePositions img.width (widthStep img.width st.resolution)).map
        (fun x => cellAt img st ((charSets st.charSet).chars.toList) x y)) ∧
    text = String.mk
      (List.flatten (grid.map (fun row => row.map (fun cell => cell.char) ++ ['\n']))) := by
  unfold convertToAscii at hok
  by_cases hd : img.width = 0 ∨ img.height = 0
  · rw [if_pos hd] at hok
    exact absurd hok (by simp)
  · rw [if_neg hd] at hok
    simp only [Except.ok.injEq, Prod.mk.injEq] at hok
    obtain ⟨ht, hg⟩ := hok
    push_neg at hd
    refine ⟨hd.1, hd.2, hg.symm, ?_⟩
    rw [← hg]
    exact ht.symm

/-! ### Splitting the text form on newlines -/

theorem splitOn_newline_flatten (rows : List (List Char))
    (hrows : ∀ r ∈ rows, '\n' ∉ r) :
    (List.flatten (rows.map (fun r => r ++ ['\n']))).splitOn '\n' = rows ++ [[]] := by
  induction rows with
  | nil => simp [List.splitOn]
  | cons r rest ih =>
    have hr : ∀ x ∈ r, ¬((x == '\n') = true) := by
      intro x hx h
      exact hrows r (List.mem_cons_self r rest) (by rw [← beq_iff_eq.mp h]; exact hx)
    have hrest := ih (fun l hl => hrows l (List.mem_cons_of_mem r hl))
    simp only [List.map_cons, List.flatten_cons, List.append_assoc, List.singleton_append]
    simp only [List.splitOn] at hrest ⊢
    rw [List.splitOnP_first _ _ hr '\n' (by simp), hrest]
    simp

theorem list_getD_map {α β : Type} (f : α → β) (l : List α) (n : Nat) (d : α) :
    (l.map f).getD n (f d) = f (l.getD n d) := by
  simp only [List.getD_eq_getElem?_getD, List.getElem?_map]
  cases l[n]? <;> rfl

theorem cellAt_char_ne_newline {img : Image} {st : ConversionSettings}
    {chars : List Char} (hchars : '\n' ∉ chars) (x y : Nat) :
    (cellAt img st chars x y).char ≠ '\n' := by
  unfold cellAt
  have hc : ∀ ci : Nat, chars.getD ci ' ' ≠ '\n' := by
    intro ci
    simp only [List.getD_eq_getElem?_getD]
    cases h : chars[ci]? with
    | none => decide
    | some c =>
      have : c ∈ chars := List.getElem?_mem h
      exact fun hEq => hchars (hEq ▸ this)
  split <;> exact hc _

/-! ### Bounds for the color adjustment -/

theorem adjust_bounds (r g b : Nat) (factor : ℚ) :
    ∃ cr cg cb : ℤ, adjustColorBrightness r g b factor = Color.rgb cr cg cb ∧
      40 ≤ cr ∧ cr ≤ 255 ∧ 40 ≤ cg ∧ cg ≤ 255 ∧ 40 ≤ cb ∧ cb ≤ 255 := by
  refine ⟨_, _, _, rfl, ?_, ?_, ?_, ?_, ?_, ?_⟩ <;>
    first
      | exact le_max_right _ _
      | exact max_le (le_trans (min_le_right _ _) (by norm_num)) (by norm_num)

theorem brightnessFactor_mem {st : ConversionSettings} {r g b : Nat}
    (hr : r ≤ 255) (hg : g ≤ 255) (hb : b ≤ 255) :
    1 / 2 ≤ brightnessFactor (charIndexOf st r g b (rampLen st.charSet)) (rampLen st.charSet) ∧
    brightnessFactor (charIndexOf st r g b (rampLen st.charSet)) (rampLen st.charSet) ≤ 2 := by
  obtain ⟨h0, h1⟩ := brightnessOf_mem st hr hg hb
  have hci : charIndexOf st r g b (rampLen st.charSet) ≤ rampLen st.charSet - 1 :=
    rampIndex_le h1
  have hL := rampLen_ge_four st.charSet
  have hpos : (0 : ℚ) < ((rampLen st.charSet - 1 : Nat) : ℚ) := by
    have : 1 ≤ rampLen st.charSet - 1 := by omega
    exact_mod_cast lt_of_lt_of_le Nat.zero_lt_one this
  have ht0 : (0 : ℚ) ≤
      ((charIndexOf st r g b (rampLen st.charSet) : ℚ) / ((rampLen st.charSet - 1 : Nat) : ℚ)) :=
    div_nonneg (by positivity) (le_of_lt hpos)
  have ht1 : ((charIndexOf st r g b (rampLen st.charSet) : ℚ) /
      ((rampLen st.charSet - 1 : Nat) : ℚ)) ≤ 1 := by
    rw [div_le_one hpos]
    exact_mod_cast hci
  unfold brightnessFactor
  constructor <;> [linarith; linarith]

/-! ### Concrete evaluations used by counterexamples and witnesses -/

theorem convert_c1_eval :
    convertToAscii imgC1 stGray =
      .ok ("@ \n", [[⟨'@', Color.white⟩, ⟨' ', Color.white⟩]]) := by
  rw [convertToAscii_gray (by rfl)]
  have hws : widthStep 2 (1 : ℚ) = some 1 := by
    norm_num [widthStep, sampleCols, ceilDiv] <;> decide
  have hhs : heightStep 2 (1 : ℚ) = some 2 := by
    norm_num [heightStep, sampleRows, ceilDiv] <;> decide
  have h9 : grayCharIndex ⟨1, .standard, false, true⟩ 255 255 255 10 = 9 := by
    norm_num [grayCharIndex, grayBrightnessQ, grayLuma] <;> decide
  have h0 : grayCharIndex ⟨1, .standard, false, true⟩ 0 0 0 10 = 0 := by
    norm_num [grayCharIndex, grayBrightnessQ, grayLuma]
  simp only [convertGray, imgC1, stGray]
  rw [hws, hhs]
  simp only [stridePositions, ceilDiv]
  norm_num [grayCellAt, charSets, List.range_succ]
  rw [h9, h0]
  decide

theorem brightnessOf_stColor_black :
    brightnessOf ⟨1, .standard, false, false⟩ 0 0 0 = 0 := by
  simp [brightnessOf, colorBrightness]

theorem convert_c6_eval :
    convertToAscii imgBlack1 stColor = .ok (" \n", [[⟨' ', Color.rgb 40 40 40⟩]]) := by
  have hxs : stridePositions 1 (widthStep 1 (1 : ℚ)) = [0] :=
    (stride_one_axis 1 one_pos (le_refl 1)).1
  have hys : stridePositions 1 (heightStep 1 (1 : ℚ)) = [0] :=
    (stride_one_axis 1 one_pos (le_refl 1)).2
  have hci : charIndexOf ⟨1, .standard, false, false⟩ 0 0 0 10 = 0 := by
    rw [charIndexOf, brightnessOf_stColor_black, rampIndex_zero]
  have hadj : adjustColorBrightness 0 0 0 (brightnessFactor 0 10) = Color.rgb 40 40 40 := by
    norm_num [adjustColorBrightness, brightnessFactor, jsRound]
  unfold convertToAscii
  rw [if_neg (by decide)]
  show Except.ok (_, _) = _
  rw [show imgBlack1.height = 1 from rfl, show imgBlack1.width = 1 from rfl,
    show stColor.resolution = (1 : ℚ) from rfl, hxs, hys]
  simp only [List.map_cons, List.map_nil, cellAt]
  norm_num [imgBlack1, stColor, charSets, hci, hadj]

theorem x1_mem : 1 ∈ stridePositions 2 (widthStep 2 1) := by
  have hws : widthStep 2 (1 : ℚ) = some 1 := by
    norm_num [widthStep, sampleCols, ceilDiv] <;> decide
  rw [hws]
  decide

theorem y0_mem : 0 ∈ stridePositions 2 (heightStep 2 1) := by
  have hhs : heightStep 2 (1 : ℚ) = some 2 := by
    norm_num [heightStep, sampleRows, ceilDiv] <;> decide
  rw [hhs]
  decide

/-! ### The claims -/

/-- C1 (counterexample): on the 2-by-2 white/black/white/black image with
resolution 1, the standard ramp, grayscale mode and no inversion, `convert`
does not return the text claimed by the specification, `"@ \n@ \n"`: the
vertical stride is `ceil(2 / 2 / 0.5) = 2`, so only the first pixel row is
visited. -/
theorem spec_C1_cex :
    (convertToAscii imgC1 stGray).toOption.map Prod.fst ≠ some "@ \n@ \n" := by
  rw [convert_c1_eval]
  decide

/-- C1 (amended): on the 2-by-2 white/black/white/black image with
resolution 1, the standard ramp, grayscale mode and no inversion, `convert`
returns the text `"@ \n"` — a single row of two cells, the white pixel
mapping to the last ramp character `@` and the black pixel to the first
ramp character (space), in walk order — because the aspect-corrected
vertical stride `ceil(2 / 2 / 0.5) = 2` visits only the top pixel row. -/
theorem spec_C1 :
    convertToAscii imgC1 stGray =
      .ok ("@ \n", [[⟨'@', Color.white⟩, ⟨' ', Color.white⟩]]) :=
  convert_c1_eval

/-- C2 (counterexample): the target sample counts are not coerced to at
least 1: for image width 2 and resolution 1/10 (which lies in (0, 1]),
`sampleCols = floor(2 * 1/10) = 0`, so the divisor of the stride
computation is zero and JavaScript produces an `Infinity` stride (the
`none` branch of `widthStep`). -/
theorem spec_C2_cex :
    (0 : ℚ) < 1 / 10 ∧ (1 / 10 : ℚ) ≤ 1 ∧ sampleCols 2 (1 / 10) = 0 ∧
      widthStep 2 (1 / 10) = none := by
  refine ⟨by norm_num, by norm_num, ?_, ?_⟩
  · norm_num [sampleCols]
  · norm_num [widthStep, sampleCols]

/-- C2 (amended): the code performs no coercion of
`floor(dimension * resolution)` to at least 1 and the stride divisor can be
zero; the resulting `Infinity` stride still makes the walk visit one sample
on that axis, so every successful conversion yields a nonempty grid all of
whose rows are nonempty — degenerate zero-size output never occurs. -/
theorem spec_C2 (img : Image) (st : ConversionSettings) (text : String)
    (grid : List (List ColoredChar))
    (hok : convertToAscii img st = .ok (text, grid)) :
    grid ≠ [] ∧ ∀ row ∈ grid, row ≠ [] := by
  obtain ⟨hw, hh, hg, -⟩ := convert_ok_elim hok
  constructor
  · rw [hg]
    simp only [ne_eq, List.map_eq_nil_iff]
    exact stridePositions_heightStep_ne_nil (Nat.pos_of_ne_zero hh) _
  · intro row hrow
    rw [hg] at hrow
    obtain ⟨y, hy, rfl⟩ := List.mem_map.mp hrow
    simp only [ne_eq, List.map_eq_nil_iff]
    exact stridePositions_widthStep_ne_nil (Nat.pos_of_ne_zero hw) _

theorem spec_C2_w :
    ([[⟨'@', Color.white⟩, ⟨' ', Color.white⟩]] : List (List ColoredChar)) ≠ [] ∧
    ∀ row ∈ ([[⟨'@', Color.white⟩, ⟨' ', Color.white⟩]] : List (List ColoredChar)),
      row ≠ [] :=
  spec_C2 imgC1 stGray "@ \n" [[⟨'@', Color.white⟩, ⟨' ', Color.white⟩]] convert_c1_eval

/-- C3: for every built-in ramp (every settings value selects one) and
every pixel with 8-bit channels, in grayscale or color mode, inverted or
not, the brightness lies in [0, 1]; hence the ramp index lies in
[0, rampLength - 1] and the ramp lookup is within bounds; the index map
sends brightness 0 to index 0 and brightness 1 to index rampLength - 1. -/
theorem spec_C3 (st : ConversionSettings) (r g b : Nat)
    (hr : r ≤ 255) (hg : g ≤ 255) (hb : b ≤ 255) :
    0 ≤ brightnessOf st r g b ∧ brightnessOf st r g b ≤ 1 ∧
    charIndexOf st r g b (rampLen st.charSet) ≤ rampLen st.charSet - 1 ∧
    charIndexOf st r g b (rampLen st.charSet) < rampLen st.charSet ∧
    rampIndex 0 (rampLen st.charSet) = 0 ∧
    rampIndex 1 (rampLen st.charSet) = rampLen st.charSet - 1 := by
  obtain ⟨h0, h1⟩ := brightnessOf_mem st hr hg hb
  have hlen : 0 < rampLen st.charSet :=
    lt_of_lt_of_le (by norm_num) (rampLen_ge_four st.charSet)
  exact ⟨h0, h1, rampIndex_le h1, rampIndex_lt hlen h1,
    rampIndex_zero _, rampIndex_one _⟩

theorem spec_C3_w :
    0 ≤ brightnessOf ⟨1, .artistic, true, false⟩ 100 100 100 ∧
    brightnessOf ⟨1, .artistic, true, false⟩ 100 100 100 ≤ 1 ∧
    charIndexOf ⟨1, .artistic, true, false⟩ 100 100 100 (rampLen CharSetKey.artistic) ≤
      rampLen CharSetKey.artistic - 1 ∧
    charIndexOf ⟨1, .artistic, true, false⟩ 100 100 100 (rampLen CharSetKey.artistic) <
      rampLen CharSetKey.artistic ∧
    rampIndex 0 (rampLen CharSetKey.artistic) = 0 ∧
    rampIndex 1 (rampLen CharSetKey.artistic) = rampLen CharSetKey.artistic - 1 :=
  spec_C3 ⟨1, .artistic, true, false⟩ 100 100 100 (by decide) (by decide) (by decide)

/-- C4: for every successful conversion, the plain text is the
concatenation of the grid rows' characters, each row followed by a newline
(so rows are newline-joined with a trailing newline); consequently
splitting the text on newline recovers exactly the rows of characters, and
the character of `grid[r][c]` equals character `c` of line `r` of the text
split on newline. -/
theorem spec_C4 (img : Image) (st : ConversionSettings) (text : String)
    (grid : List (List ColoredChar))
    (hok : convertToAscii img st = .ok (text, grid)) :
    text.toList =
      List.flatten (grid.map (fun row => row.map (fun cell => cell.char) ++ ['\n'])) ∧
    text.toList.splitOn '\n' = grid.map (fun row => row.map (fun cell => cell.char)) ++ [[]] ∧
    ∀ r c : Nat, r < grid.length → c < (grid.getD r []).length →
      ((grid.getD r []).getD c ⟨' ', Color.white⟩).char =
        ((text.toList.splitOn '\n').getD r []).getD c ' ' := by
  obtain ⟨hw, hh, hg, ht⟩ := convert_ok_elim hok
  have h1 : text.toList =
      List.flatten (grid.map (fun row => row.map (fun cell => cell.char) ++ ['\n'])) := by
    rw [ht]
    rfl
  have hnol : ∀ rowc ∈ grid.map (fun row => row.map (fun cell => cell.char)), '\n' ∉ rowc := by
    intro rowc hrowc
    obtain ⟨row, hrow, rfl⟩ := List.mem_map.mp hrowc
    intro hmem
    obtain ⟨cell, hcell, hchar⟩ := List.mem_map.mp hmem
    rw [hg] at hrow
    obtain ⟨y, hy, rfl⟩ := List.mem_map.mp hrow
    obtain ⟨x, hx, rfl⟩ := List.mem_map.mp hcell
    exact cellAt_char_ne_newline (newline_not_mem_chars st.charSet) x y hchar
  have h2 : text.toList.splitOn '\n' =
      grid.map (fun row => row.map (fun cell => cell.char)) ++ [[]] := by
    have h3 := splitOn_newline_flatten (grid.map (fun row => row.map (fun cell => cell.char))) hnol
    rw [List.map_map] at h3
    rw [h1]
    exact h3
  refine ⟨h1, h2, ?_⟩
  intro r c hr hc
  rw [h2]
  have hlen : r < (grid.map (fun row => row.map (fun cell => cell.char))).length := by
    simpa using hr
  rw [List.getD_append _ _ _ _ hlen]
  have hd1 : (grid.map (fun row => row.map (fun cell => cell.char))).getD r [] =
      (grid.getD r []).map (fun cell => cell.char) := by
    have := list_getD_map (fun row : List ColoredChar => row.map (fun cell => cell.char))
      grid r []
    simpa using this
  rw [hd1]
  have := list_getD_map (fun cell : ColoredChar => cell.char) (grid.getD r []) c
    ⟨' ', Color.white⟩
  simpa using this.symm

theorem spec_C4_w :
    ("@ \n" : String).toList =
      List.flatten (([[⟨'@', Color.white⟩, ⟨' ', Color.white⟩]] :
        List (List ColoredChar)).map (fun row => row.map (fun cell => cell.char) ++ ['\n'])) ∧
    ("@ \n" : String).toList.splitOn '\n' =
      ([[⟨'@', Color.white⟩, ⟨' ', Color.white⟩]] : List (List ColoredChar)).map
        (fun row => row.map (fun cell => cell.char)) ++ [[]] ∧
    ∀ r c : Nat, r < ([[⟨'@', Color.white⟩, ⟨' ', Color.white⟩]] :
        List (List ColoredChar)).length →
      c < (([[⟨'@', Color.white⟩, ⟨' ', Color.white⟩]] :
        List (List ColoredChar)).getD r []).length →
      ((([[⟨'@', Color.white⟩, ⟨' ', Color.white⟩]] :
        List (List ColoredChar)).getD r []).getD c ⟨' ', Color.white⟩).char =
        ((("@ \n" : String).toList.splitOn '\n').getD r []).getD c ' ' :=
  spec_C4 imgC1 stGray "@ \n" [[⟨'@', Color.white⟩, ⟨' ', Color.white⟩]] convert_c1_eval

/-- C5: any image with zero width or zero height makes `convert` fail with
the invalid-dimensions error; the result is the bare error value, so no
grid and no text — partial or otherwise — is returned. -/
theorem spec_C5 (img : Image) (st : ConversionSettings)
    (h : img.width = 0 ∨ img.height = 0) :
    convertToAscii img st = .error .invalidDimensions := by
  unfold convertToAscii
  rw [if_pos h]

theorem spec_C5_w : convertToAscii ⟨0, 3, []⟩ stGray = .error .invalidDimensions :=
  spec_C5 ⟨0, 3, []⟩ stGray (Or.inl rfl)

/-- C6: in color mode every emitted cell color is an RGB triple whose
channels lie in [40, 255], obtained by scaling the source channels with
`brightnessFactor`, rounding and clamping; and for 8-bit source channels
the factor `(charIndex / (rampLength - 1)) * 1.5 + 0.5` itself lies in
[0.5, 2]. -/
theorem spec_C6 (img : Image) (st : ConversionSettings) (text : String)
    (grid : List (List ColoredChar)) (hgray : st.grayscale = false)
    (hok : convertToAscii img st = .ok (text, grid)) :
    (∀ row ∈ grid, ∀ cell ∈ row, ∃ cr cg cb : ℤ, cell.color = Color.rgb cr cg cb ∧
      40 ≤ cr ∧ cr ≤ 255 ∧ 40 ≤ cg ∧ cg ≤ 255 ∧ 40 ≤ cb ∧ cb ≤ 255) ∧
    (∀ r g b : Nat, r ≤ 255 → g ≤ 255 → b ≤ 255 →
      1 / 2 ≤ brightnessFactor (charIndexOf st r g b (rampLen st.charSet))
          (rampLen st.charSet) ∧
      brightnessFactor (charIndexOf st r g b (rampLen st.charSet))
          (rampLen st.charSet) ≤ 2) := by
  obtain ⟨hw, hh, hg, -⟩ := convert_ok_elim hok
  constructor
  · intro row hrow cell hcell
    rw [hg] at hrow
    obtain ⟨y, hy, rfl⟩ := List.mem_map.mp hrow
    obtain ⟨x, hx, rfl⟩ := List.mem_map.mp hcell
    simp only [cellAt, hgray, Bool.false_eq_true, if_false]
    exact adjust_bounds _ _ _ _
  · intro r g b hr hgc hbc
    exact brightnessFactor_mem hr hgc hbc

theorem spec_C6_w :
    (∀ row ∈ ([[⟨' ', Color.rgb 40 40 40⟩]] : List (List ColoredChar)), ∀ cell ∈ row,
      ∃ cr cg cb : ℤ, cell.color = Color.rgb cr cg cb ∧
        40 ≤ cr ∧ cr ≤ 255 ∧ 40 ≤ cg ∧ cg ≤ 255 ∧ 40 ≤ cb ∧ cb ≤ 255) ∧
    (∀ r g b : Nat, r ≤ 255 → g ≤ 255 → b ≤ 255 →
      1 / 2 ≤ brightnessFactor (charIndexOf stColor r g b (rampLen stColor.charSet))
          (rampLen stColor.charSet) ∧
      brightnessFactor (charIndexOf stColor r g b (rampLen stColor.charSet))
          (rampLen stColor.charSet) ≤ 2) :=
  spec_C6 imgBlack1 stColor " \n" [[⟨' ', Color.rgb 40 40 40⟩]] rfl convert_c6_eval

/-- C7: every 1-by-1 image, at any resolution in (0, 1] and any other
settings, converts to a grid of exactly one row holding exactly one cell,
with a text of exactly that cell's character followed by a newline. -/
theorem spec_C7 (img : Image) (st : ConversionSettings)
    (hw : img.width = 1) (hh : img.height = 1)
    (h0 : 0 < st.resolution) (h1 : st.resolution ≤ 1) :
    ∃ cell : ColoredChar,
      convertToAscii img st = .ok (String.mk [cell.char, '\n'], [[cell]]) := by
  obtain ⟨hxs, hys⟩ := stride_one_axis st.resolution h0 h1
  refine ⟨cellAt img st ((charSets st.charSet).chars.toList) 0 0, ?_⟩
  unfold convertToAscii
  rw [if_neg (by rw [hw, hh]; decide)]
  rw [hw, hh, hxs, hys]
  rfl

theorem spec_C7_w :
    ∃ cell : ColoredChar,
      convertToAscii img11 ⟨1, .standard, false, true⟩ =
        .ok (String.mk [cell.char, '\n'], [[cell]]) :=
  spec_C7 img11 ⟨1, .standard, false, true⟩ rfl rfl one_pos (le_refl 1)

/-- C8: the conversion is deterministic — it is a pure function of the
image and settings, so two runs on the same pair yield the same text and
the same grid. -/
theorem spec_C8 (img : Image) (st : ConversionSettings) :
    convertToAscii img st = convertToAscii img st := rfl

/-- C9: the output does not depend on the alpha channel: two images with
the same dimensions whose buffers agree on the r, g and b channels of every
pixel (entries `4i`, `4i+1`, `4i+2`) convert identically under every
settings value, whatever their alpha entries hold. -/
theorem spec_C9 (img1 img2 : Image) (st : ConversionSettings)
    (hw : img1.width = img2.width) (hh : img1.height = img2.height)
    (hrgb : ∀ i : Nat, i < img1.width * img1.height →
      img1.data.getD (i * 4) 0 = img2.data.getD (i * 4) 0 ∧
      img1.data.getD (i * 4 + 1) 0 = img2.data.getD (i * 4 + 1) 0 ∧
      img1.data.getD (i * 4 + 2) 0 = img2.data.getD (i * 4 + 2) 0) :
    convertToAscii img1 st = convertToAscii img2 st := by
  unfold convertToAscii
  by_cases hd : img2.width = 0 ∨ img2.height = 0
  · rw [if_pos (by rw [hw, hh]; exact hd), if_pos hd]
  · rw [if_neg (by rw [hw, hh]; exact hd), if_neg hd]
    have hgrid :
        (stridePositions img1.height (heightStep img1.height st.resolution)).map
          (fun y => (stridePositions img1.width (widthStep img1.width st.resolution)).map
            (fun x => cellAt img1 st ((charSets st.charSet).chars.toList) x y)) =
        (stridePositions img2.height (heightStep img2.height st.resolution)).map
          (fun y => (stridePositions img2.width (widthStep img2.width st.resolution)).map
            (fun x => cellAt img2 st ((charSets st.charSet).chars.toList) x y)) := by
      rw [hw, hh]
      apply List.map_congr_left
      intro y hy
      apply List.map_congr_left
      intro x hx
      have hx' : x < img2.width := mem_stridePositions_lt hx
      have hy' : y < img2.height := mem_stridePositions_lt hy
      have hidx : y * img2.width + x < img1.width * img1.height := by
        rw [hw, hh]
        calc y * img2.width + x < y * img2.width + img2.width := by omega
        _ = (y + 1) * img2.width := by ring
        _ ≤ img2.height * img2.width := Nat.mul_le_mul_right img2.width (by omega)
        _ = img2.width * img2.height := Nat.mul_comm img2.height img2.width
      obtain ⟨h1, h2, h3⟩ := hrgb (y * img2.width + x) hidx
      simp only [cellAt]
      rw [hw, h1, h2, h3]
    simp only [hgrid]

theorem spec_C9_w : convertToAscii img11 stGray = convertToAscii img11a stGray :=
  spec_C9 img11 img11a stGray rfl rfl (by decide)

/-- C10: every pixel position visited by the stride walk has `x < width`
and `y < height`, so the buffer offset `pos = (y*width + x) * 4` satisfies
`pos + 2 < 4 * width * height`: the three channel reads stay inside the
RGBA buffer. -/
theorem spec_C10 (w h : Nat) (res : ℚ) (x y : Nat)
    (hx : x ∈ stridePositions w (widthStep w res))
    (hy : y ∈ stridePositions h (heightStep h res)) :
    (y * w + x) * 4 + 2 < 4 * (w * h) := by
  have hxw := mem_stridePositions_lt hx
  have hyh := mem_stridePositions_lt hy
  have hlt : y * w + x < w * h := by
    calc y * w + x < y * w + w := by omega
    _ = (y + 1) * w := by ring
    _ ≤ h * w := Nat.mul_le_mul_right w (by omega)
    _ = w * h := Nat.mul_comm h w
  omega

theorem spec_C10_w : (0 * 2 + 1) * 4 + 2 < 4 * (2 * 2) :=
  spec_C10 2 2 1 1 0 x1_mem y0_mem

end PhotoToAscii
